import Mathlib

/-!
Shallow embedding of the client-report-automation repository
(src/image_analysis.py, src/pdf_extraction.py, src/insight_generation.py),
together with theorems settling the specification claims about it.

Python strings are modelled as Lean `String`; Python dicts (which preserve
insertion order) are modelled as association lists `List (String × α)` in
which updates keep the position of an existing key and new keys are
appended at the end, exactly as CPython does.
-/

/-! ## Python string primitives -/

/-- Python case conversion `str.lower()` (character-wise, ASCII). -/
def pyLower (s : String) : String :=
  String.mk (s.toList.map Char.toLower)

/-- Python `str.capitalize()`: first character upper-cased, the rest lower-cased. -/
def pyCapitalize (s : String) : String :=
  match s.toList with
  | [] => ""
  | c :: rest => String.mk (c.toUpper :: rest.map Char.toLower)

/-- Substring test on character lists: `needle` occurs somewhere in `hay`. -/
def listContains (hay needle : List Char) : Bool :=
  match hay with
  | [] => needle.isEmpty
  | _ :: t => List.isPrefixOf needle hay || listContains t needle

/-- Python substring operator `needle in hay`. -/
def strContains (hay needle : String) : Bool :=
  listContains hay.toList needle.toList

/-- Characters up to (excluding) the first occurrence of `needle`;
the whole list when `needle` does not occur. -/
def upToFirstSub (needle : List Char) : List Char → List Char
  | [] => []
  | c :: rest =>
    if List.isPrefixOf needle (c :: rest) then []
    else c :: upToFirstSub needle rest

/-- Characters after the first occurrence of `needle`, when it occurs. -/
def afterFirstSub (needle : List Char) : List Char → Option (List Char)
  | [] => none
  | c :: rest =>
    if List.isPrefixOf needle (c :: rest) then some (List.drop needle.length (c :: rest))
    else afterFirstSub needle rest

/-- Fuel-driven worker for Python `str.split(sep)` with a non-empty separator.
The fuel is at least the length of the input, so the fuel-exhausted branch is
never reached from `pySplitOn`. -/
def splitChunksF (sep : List Char) : Nat → List Char → List (List Char)
  | _, [] => [[]]
  | 0, l => [l]
  | fuel + 1, c :: rest =>
    if List.isPrefixOf sep (c :: rest) then
      [] :: splitChunksF sep fuel (List.drop sep.length (c :: rest))
    else
      match splitChunksF sep fuel rest with
      | [] => [[c]]
      | chunk :: more => (c :: chunk) :: more

/-- Python `text.split(sep)` for a non-empty separator `sep`. -/
def pySplitOn (text sep : String) : List String :=
  (splitChunksF sep.toList text.toList.length text.toList).map String.mk

/-- Python `str.strip()` on a character list. -/
def stripList (l : List Char) : List Char :=
  ((l.dropWhile Char.isWhitespace).reverse.dropWhile Char.isWhitespace).reverse

/-- Python `str.strip()`. -/
def pyStrip (s : String) : String :=
  String.mk (stripList s.toList)

/-- Worker for whitespace splitting: chunks between single whitespace characters,
empty chunks included. -/
def wsplitList : List Char → List (List Char)
  | [] => [[]]
  | c :: rest =>
    if c.isWhitespace then [] :: wsplitList rest
    else
      match wsplitList rest with
      | [] => [[c]]
      | chunk :: more => (c :: chunk) :: more

/-- Python `str.split()` with no argument: split on whitespace runs,
discarding empty fields. -/
def pySplitWs (s : String) : List String :=
  ((wsplitList s.toList).filter (fun l => !l.isEmpty)).map String.mk

/-! ## Python dict primitives (insertion-ordered association lists) -/

/-- Update the value at key `k` in place (first matching entry), or append
a new entry at the end.  This is the CPython dict update discipline. -/
def dictUpd {α : Type} (k : String) (f : Option α → α) :
    List (String × α) → List (String × α)
  | [] => [(k, f none)]
  | (k1, v1) :: rest =>
    if k1 = k then (k1, f (some v1)) :: rest
    else (k1, v1) :: dictUpd k f rest

/-- Python `d[k] = v`. -/
def dictSet {α : Type} (k : String) (v : α) (m : List (String × α)) :
    List (String × α) :=
  dictUpd k (fun _ => v) m

/-- The Python idiom `if k not in d: d[k] = []` followed by `d[k].append(v)`. -/
def dictAppend {α : Type} (k : String) (v : α) (m : List (String × List α)) :
    List (String × List α) :=
  dictUpd k (fun o => o.getD [] ++ [v]) m

/-- Dict lookup (first matching entry). -/
def alookup {α : Type} (k : String) : List (String × α) → Option α
  | [] => none
  | (k1, v1) :: rest => if k1 = k then some v1 else alookup k rest

/-- Keys of an association list, in order. -/
def dictKeys {α : Type} (m : List (String × α)) : List String :=
  m.map Prod.fst

/-! ## image_analysis.py -/

/-- The `platforms` table of `ImageAnalyzer._detect_platform`, in source order. -/
def platformTable : List (String × List String) :=
  [ ("facebook",  ["facebook", "fb", "meta"]),
    ("instagram", ["instagram", "ig", "insta"]),
    ("twitter",   ["twitter", "tweet", "x"]),
    ("linkedin",  ["linkedin", "li", "linked in"]),
    ("tiktok",    ["tiktok", "tt", "tik tok"]),
    ("youtube",   ["youtube", "yt", "you tube"]),
    ("pinterest", ["pinterest", "pin"]) ]

/-- The nested loop of `_detect_platform`: return the first platform one of
whose patterns occurs case-insensitively in the text. -/
def detectPlatformGo (text : String) : List (String × List String) → String
  | [] => "unknown"
  | (platform, pats) :: rest =>
    if pats.any (fun pat => strContains (pyLower text) (pyLower pat)) then platform
    else detectPlatformGo text rest

/-- `ImageAnalyzer._detect_platform`. -/
def detect_platform (text : String) : String :=
  detectPlatformGo text platformTable

/-- The `metric_patterns` table of `ImageAnalyzer._extract_metrics`, in source order. -/
def metricPatterns : List (String × List String) :=
  [ ("impressions", ["impressions", "views", "reach"]),
    ("engagement",  ["engagement", "interactions", "likes", "comments", "shares"]),
    ("clicks",      ["clicks", "link clicks", "website clicks"]),
    ("followers",   ["followers", "new followers", "audience growth"]),
    ("conversion",  ["conversion", "leads", "sign-ups", "purchases"]) ]

/-- The word loop of `_extract_metrics`: find the first word containing the
trigger that has a following word, strip the following word and keep only
digits, dots and percent signs, and store it under `metricName`. -/
def wordScan (metricName pat : String) (m : List (String × String)) :
    List String → List (String × String)
  | [] => m
  | [_] => m
  | w :: next :: rest =>
    if strContains (pyLower w) (pyLower pat) then
      dictSet metricName
        (String.mk ((pyStrip next).toList.filter
          (fun c => c.isDigit || c = '.' || c = '%'))) m
    else wordScan metricName pat m (next :: rest)

/-- The line loop of `_extract_metrics` for one trigger pattern: on the first
line containing the pattern, if the line contains a colon store
`line.split(":")[1].strip()` and stop; otherwise run the word loop and
continue with the remaining lines. -/
def scanLines (metricName pat : String) (m : List (String × String)) :
    List String → List (String × String)
  | [] => m
  | line :: rest =>
    if strContains (pyLower line) (pyLower pat) then
      let parts := pySplitOn line ":"
      if parts.length > 1 then
        dictSet metricName (pyStrip ((parts.get? 1).getD "")) m
      else
        scanLines metricName pat (wordScan metricName pat m (pySplitWs line)) rest
    else scanLines metricName pat m rest

/-- The pattern loop of `_extract_metrics` for one metric name: every pattern
(in order) that occurs anywhere in the text triggers a line scan. -/
def extractOne (text : String) (m : List (String × String))
    (metricName : String) (pats : List String) : List (String × String) :=
  pats.foldl
    (fun acc pat =>
      if strContains (pyLower text) (pyLower pat) then
        scanLines metricName pat acc (pySplitOn text "\n")
      else acc) m

/-- Result of `ImageAnalyzer._extract_metrics` (the image-path metadata added
by `analyze_image` is irrelevant to the claims and omitted). -/
structure ImageMetrics where
  platform : String
  metrics : List (String × String)
deriving DecidableEq

/-- `ImageAnalyzer._extract_metrics`. -/
def extract_metrics (text : String) : ImageMetrics :=
  { platform := detect_platform text,
    metrics :=
      metricPatterns.foldl
        (fun m entry => extractOne text m entry.1 entry.2) [] }

/-! ## pdf_extraction.py -/

/-- One extracted KPI: a name/value pair. -/
structure Kpi where
  name : String
  value : String
deriving DecidableEq

/-- The `kpi_sections` heading list of `PDFExtractor._extract_kpis`, in source order. -/
def kpiSections : List String :=
  ["KPIs", "Key Performance Indicators", "Performance Metrics"]

/-- Python `line.split(sep, 1)` for a single-character separator occurring in
the line: the characters before and after its first occurrence. -/
def breakAtFirst (sep : Char) : List Char → Option (List Char × List Char)
  | [] => none
  | c :: rest =>
    if c = sep then some ([], rest)
    else (breakAtFirst sep rest).map (fun p => (c :: p.1, p.2))

/-- The line loop of `_extract_kpis`: every stripped non-empty line containing
a colon is split on the first colon into a trimmed name and value. -/
def parseKpiLines (kpis : List Kpi) (sectionText : String) : List Kpi :=
  (pySplitOn sectionText "\n").foldl
    (fun ks rawLine =>
      let line := pyStrip rawLine
      if line != "" && strContains line ":" then
        match breakAtFirst ':' line.toList with
        | some (n, v) =>
          ks ++ [{ name := pyStrip (String.mk n), value := pyStrip (String.mk v) }]
        | none => ks
      else ks) kpis

/-- `PDFExtractor._extract_kpis`: for each heading present in the text, parse
the section text `text.split(heading)[1].split("\n\n")[0]`. -/
def extract_kpis (text : String) : List Kpi :=
  kpiSections.foldl
    (fun kpis sec =>
      if strContains text sec then
        parseKpiLines kpis
          (((pySplitOn (((pySplitOn text sec).get? 1).getD "") "\n\n").get? 0).getD "")
      else kpis) []

/-! ## insight_generation.py -/

/-- Strategy data consumed by `InsightGenerator` (the two keys read from the
dict produced by PDF extraction; a missing key behaves as its default). -/
structure StrategyData where
  kpis : List Kpi
  content_pillars : List String
deriving DecidableEq

/-- Metrics data: the insertion-ordered dict of image name to per-image data. -/
abbrev MetricsData := List (String × ImageMetrics)

/-- The platform-grouping loop of `_generate_platform_insights`. -/
def groupByPlatform (md : MetricsData) : List (String × List ImageMetrics) :=
  md.foldl (fun platforms kv => dictAppend kv.2.platform kv.2 platforms) []

/-- The metric-combination loop of `_generate_platform_insights`: union the
metric name/value pairs of all images of one platform into value lists. -/
def combineMetrics (dataList : List ImageMetrics) : List (String × List String) :=
  dataList.foldl
    (fun combined d =>
      d.metrics.foldl (fun c p => dictAppend p.1 p.2 c) combined) []

/-- The if/elif template chain of `_generate_platform_insights`: the sentence
for one known metric name, none for an unknown name. -/
def platformSentence (platform metricName value : String) : Option String :=
  if metricName = "impressions" then
    some (pyCapitalize platform ++ " content reached a significant audience with "
      ++ value ++ " impressions.")
  else if metricName = "engagement" then
    some (pyCapitalize platform ++ " engagement was strong with "
      ++ value ++ " interactions.")
  else if metricName = "clicks" then
    some (pyCapitalize platform ++ " drove " ++ value ++ " clicks to the website.")
  else if metricName = "followers" then
    some (pyCapitalize platform ++ " audience grew by " ++ value ++ " new followers.")
  else if metricName = "conversion" then
    some (pyCapitalize platform ++ " generated " ++ value ++ " conversions.")
  else none

/-- `InsightGenerator._generate_platform_insights`. -/
def generate_platform_insights (md : MetricsData) : List String :=
  (groupByPlatform md).foldl
    (fun insights pg =>
      if pg.1 = "unknown" then insights
      else
        (combineMetrics pg.2).foldl
          (fun ins mv =>
            match mv.2 with
            | [] => ins
            | v :: _ =>
              match platformSentence pg.1 mv.1 v with
              | some s => ins ++ [s]
              | none => ins) insights) []

/-- The metric-pooling loop of `_generate_kpi_insights`: union the metric
name/value pairs of all images into value lists. -/
def allMetrics (md : MetricsData) : List (String × List String) :=
  md.foldl
    (fun acc kv => kv.2.metrics.foldl (fun a p => dictAppend p.1 p.2 a) acc) []

/-- The comprehension dropping every character other than digits and dots
before the float conversions of `_generate_kpi_insights`. -/
def stripNum (s : String) : List Char :=
  s.toList.filter (fun c => c.isDigit || c = '.')

/-- Decimal digits to a natural number. -/
def digitsToNat (l : List Char) : Nat :=
  l.foldl (fun n c => n * 10 + (c.toNat - 48)) 0

/-- Python `float()` on a string of digits and dots, modelled exactly over the
rationals: it succeeds when the string holds at most one dot and at least one
digit, and fails (raises) otherwise. -/
def parseFloatQ (l : List Char) : Option ℚ :=
  if l.all (fun c => c.isDigit || c = '.') then
    match splitChunksF ['.'] l.length l with
    | [ip] => if ip.isEmpty then none else some (digitsToNat ip : ℚ)
    | [ip, fp] =>
      if ip.isEmpty && fp.isEmpty then none
      else some ((digitsToNat ip : ℚ) + (digitsToNat fp : ℚ) / (10 ^ fp.length : ℚ))
    | _ => none
  else none

/-- The try/except comparison block of `_generate_kpi_insights`: the sentence
produced from one lowered KPI name, raw KPI value and raw metric value. -/
def kpiSentence (kpiName kpiValue metricValue : String) : String :=
  match parseFloatQ (stripNum kpiValue), parseFloatQ (stripNum metricValue) with
  | some kpiNum, some metricNum =>
    if metricNum ≥ kpiNum then
      "Exceeded KPI for " ++ kpiName ++ ": Target was " ++ kpiValue
        ++ ", achieved " ++ metricValue ++ "."
    else
      "Below KPI for " ++ kpiName ++ ": Target was " ++ kpiValue
        ++ ", achieved " ++ metricValue ++ "."
  | _, _ =>
    "KPI for " ++ kpiName ++ ": Target was " ++ kpiValue
      ++ ", achieved " ++ metricValue ++ "."

/-- `InsightGenerator._generate_kpi_insights`. -/
def generate_kpi_insights (sd : StrategyData) (md : MetricsData) : List String :=
  sd.kpis.foldl
    (fun insights kpi =>
      let kpiName := pyLower kpi.name
      (allMetrics md).foldl
        (fun ins mv =>
          if strContains kpiName (pyLower mv.1)
              || strContains (pyLower mv.1) kpiName then
            match mv.2 with
            | [] => ins
            | v :: _ => ins ++ [kpiSentence kpiName kpi.value v]
          else ins) insights) []

/-- The key-phrase list of `_generate_content_insights`, in source order. -/
def contentPhrases : List String :=
  ["performed well", "high engagement", "popular", "successful", "resonated",
   "positive feedback", "strong performance"]

/-- `InsightGenerator._generate_content_insights` (its metrics argument is
never used by the source). -/
def generate_content_insights (sd : StrategyData) (_md : MetricsData)
    (highlights : String) : List String :=
  let pillarInsights :=
    if sd.content_pillars != [] && highlights != "" then
      sd.content_pillars.foldl
        (fun ins pillar =>
          if strContains (pyLower highlights) (pyLower pillar) then
            ins ++ ["Content aligned with the \x27" ++ pillar
              ++ "\x27 pillar performed well this month."]
          else ins) []
    else []
  if highlights != "" then
    contentPhrases.foldl
      (fun ins phrase =>
        if strContains (pyLower highlights) phrase then
          match (pySplitOn highlights ".").find?
              (fun sentence => strContains (pyLower sentence) phrase) with
          | some sentence => ins ++ [pyStrip sentence ++ "."]
          | none => ins
        else ins) pillarInsights
  else pillarInsights

/-- The positive keyword list of `_generate_key_takeaway`. -/
def positiveWords : List String :=
  ["exceeded", "strong", "significant", "grew", "performed well"]

/-- The negative keyword list of `_generate_key_takeaway`. -/
def negativeWords : List String :=
  ["below", "declined", "decreased", "underperformed"]

/-- Number of insights containing some positive keyword case-insensitively. -/
def positiveCount (allInsights : List String) : Nat :=
  (allInsights.filter
    (fun insight => positiveWords.any (fun w => strContains (pyLower insight) w))).length

/-- Number of insights containing some negative keyword case-insensitively. -/
def negativeCount (allInsights : List String) : Nat :=
  (allInsights.filter
    (fun insight => negativeWords.any (fun w => strContains (pyLower insight) w))).length

/-- The fixed strong-performance takeaway sentence. -/
def strongTakeaway : String :=
  "Overall performance was strong this month, with multiple KPIs exceeding targets. Continue to focus on content that resonates with the audience."

/-- The fixed below-targets takeaway sentence. -/
def belowTakeaway : String :=
  "Performance was below targets in several areas this month. Consider adjusting the content strategy to better align with audience interests."

/-- The fixed mixed-performance takeaway sentence. -/
def mixedTakeaway : String :=
  "Performance was mixed this month, with some areas exceeding targets and others falling short. Focus on replicating successful content strategies."

/-- The fixed account-manager-highlights takeaway sentence. -/
def highlightsTakeaway : String :=
  "Based on the account manager\x27s highlights, focus on continuing to create content that resonates with the audience and drives engagement."

/-- The fixed insufficient-data takeaway sentence. -/
def insufficientTakeaway : String :=
  "Insufficient data to generate a meaningful takeaway. Ensure all required data is provided for future reports."

/-- `InsightGenerator._generate_key_takeaway`. -/
def generate_key_takeaway (platformInsights kpiInsights contentInsights : List String)
    (highlights : String) : String :=
  let allInsights := platformInsights ++ kpiInsights ++ contentInsights
  if allInsights != [] then
    if positiveCount allInsights > negativeCount allInsights then strongTakeaway
    else if negativeCount allInsights > positiveCount allInsights then belowTakeaway
    else mixedTakeaway
  else if highlights != "" then highlightsTakeaway
  else insufficientTakeaway

/-- A value of the insight bundle dict: a list of strings or a single string. -/
inductive InsightValue where
  | strs : List String → InsightValue
  | str : String → InsightValue
deriving DecidableEq

/-- `InsightGenerator.generate_insights`: the insertion-ordered dict built by
the try block.  All four synthesis helpers are total functions of the typed
inputs, which models that the Python body raises no exception on them. -/
def generate_insights (sd : StrategyData) (md : MetricsData) (highlights : String) :
    List (String × InsightValue) :=
  [ ("platform_insights", InsightValue.strs (generate_platform_insights md)),
    ("kpi_insights", InsightValue.strs (generate_kpi_insights sd md)),
    ("content_insights", InsightValue.strs (generate_content_insights sd md highlights)),
    ("key_takeaway", InsightValue.str
      (generate_key_takeaway (generate_platform_insights md)
        (generate_kpi_insights sd md)
        (generate_content_insights sd md highlights) highlights)) ]

/-- The dict returned by the except branch of `generate_insights`. -/
def errorInsights : List (String × InsightValue) :=
  [ ("platform_insights", InsightValue.strs []),
    ("kpi_insights", InsightValue.strs []),
    ("content_insights", InsightValue.strs []),
    ("key_takeaway", InsightValue.str "Unable to generate insights due to an error.") ]

/-! ## Definitions modelled from claim wording (used only to refute claims) -/

/-- Worker for `claimedMetricValue`: the word rule as the claim states it —
locate the word containing a trigger, and use the following word stripped to
digits, dots and percent signs. -/
def claimedWordGo (pats : List String) : List String → Option String
  | [] => none
  | [_] => none
  | w :: next :: rest =>
    if pats.any (fun p => strContains (pyLower w) (pyLower p)) then
      some (String.mk ((pyStrip next).toList.filter
        (fun c => c.isDigit || c = '.' || c = '%')))
    else claimedWordGo pats (next :: rest)

/-- Modelled from the wording of claims C5 and C6, for refutation only: the
value those claims predict for a metric — taken from the first line containing
any of the metric trigger keywords; on a colon line, everything after the
first colon trimmed, otherwise the stated word rule. -/
def claimedMetricValue (pats : List String) (text : String) : Option String :=
  ((pySplitOn text "\n").find?
      (fun line => pats.any (fun p => strContains (pyLower line) (pyLower p)))).bind
    (fun line =>
      if strContains line ":" then
        (breakAtFirst ':' line.toList).map (fun pr => pyStrip (String.mk pr.2))
      else claimedWordGo pats (pySplitWs line))

/-- Modelled from the wording of claim C7, for refutation only: the section
text that claim predicts — everything following the (first occurrence of the)
heading up to the first double-newline boundary. -/
def claimedSectionText (sec text : String) : String :=
  match afterFirstSub sec.toList text.toList with
  | some rem => String.mk (upToFirstSub ('\n' :: '\n' :: []) rem)
  | none => ""

/-- Modelled from the wording of claim C7, for refutation only: KPI extraction
as that claim describes it. -/
def claimed_kpis (text : String) : List Kpi :=
  kpiSections.foldl
    (fun ks sec =>
      if strContains text sec then parseKpiLines ks (claimedSectionText sec text)
      else ks) []

/-- Extension of an optional value list: stays absent only when nothing is
added, otherwise the present values followed by the new ones. -/
def optExtend {α : Type} (o : Option (List α)) (vs : List α) : Option (List α) :=
  match o, vs with
  | none, [] => none
  | o, vs => some (o.getD [] ++ vs)

/-! ## General lemmas -/

/-- A left fold whose step appends a contribution equals the initial value
followed by the concatenated contributions. -/
theorem foldl_app {α β : Type} (f : List α → β → List α) (g : β → List α)
    (hf : ∀ acc b, f acc b = acc ++ g b) :
    ∀ (l : List β) (init : List α), l.foldl f init = init ++ l.flatMap g := by
  intro l
  induction l with
  | nil => intro init; simp
  | cons b t ih =>
    intro init
    simp only [List.foldl_cons, List.flatMap_cons, hf]
    rw [ih, List.append_assoc]

/-- A left fold preserves an invariant preserved by each step. -/
theorem foldl_inv {α β : Type} (P : α → Prop) (f : α → β → α)
    (hstep : ∀ acc b, P acc → P (f acc b)) :
    ∀ (l : List β) (init : α), P init → P (l.foldl f init) := by
  intro l
  induction l with
  | nil => intro init h; exact h
  | cons b t ih => intro init h; exact ih _ (hstep _ _ h)

/-- Lookup after a dict update. -/
theorem alookup_dictUpd {α : Type} (k k1 : String) (f : Option α → α)
    (m : List (String × α)) :
    alookup k1 (dictUpd k f m)
      = if k = k1 then some (f (alookup k1 m)) else alookup k1 m := by
  induction m with
  | nil => by_cases h : k = k1 <;> simp [dictUpd, alookup, h]
  | cons kv rest ih =>
    obtain ⟨k2, v2⟩ := kv
    simp only [dictUpd]
    by_cases h2 : k2 = k
    · subst h2
      by_cases h1 : k2 = k1 <;> simp [alookup, h1]
    · by_cases h1 : k2 = k1
      · subst h1
        have hne : ¬ k = k2 := fun hh => h2 hh.symm
        simp [alookup, hne, if_neg h2]
      · simp [alookup, h1, if_neg h2, ih]

/-- Keys after a dict update: unchanged for an existing key, the new key
appended otherwise. -/
theorem dictKeys_dictUpd {α : Type} (k : String) (f : Option α → α)
    (m : List (String × α)) :
    dictKeys (dictUpd k f m)
      = if k ∈ dictKeys m then dictKeys m else dictKeys m ++ [k] := by
  induction m with
  | nil => simp [dictUpd, dictKeys]
  | cons kv rest ih =>
    obtain ⟨k2, v2⟩ := kv
    by_cases h2 : k2 = k
    · simp [dictUpd, dictKeys, h2]
    · by_cases h3 : k ∈ dictKeys rest <;>
        simp_all [dictUpd, dictKeys, Ne.symm h2]

/-- A dict update keeps the keys duplicate-free. -/
theorem nodup_dictKeys_dictUpd {α : Type} (k : String) (f : Option α → α)
    (m : List (String × α)) (h : (dictKeys m).Nodup) :
    (dictKeys (dictUpd k f m)).Nodup := by
  rw [dictKeys_dictUpd]
  by_cases hk : k ∈ dictKeys m
  · simpa [hk] using h
  · simp [hk, List.nodup_append, h, List.disjoint_singleton, hk]

/-- optExtend by nothing changes nothing. -/
theorem optExtend_nil {α : Type} (o : Option (List α)) : optExtend o [] = o := by
  cases o <;> simp [optExtend]

/-- optExtend by at least one value is always present. -/
theorem optExtend_cons {α : Type} (o : Option (List α)) (v : α) (vs : List α) :
    optExtend o (v :: vs) = some (o.getD [] ++ v :: vs) := by
  cases o <;> rfl

/-- optExtend of a present list appends. -/
theorem optExtend_some {α : Type} (l : List α) (vs : List α) :
    optExtend (some l) vs = some (l ++ vs) := by
  cases vs <;> simp [optExtend]

/-- Lookup after folding dictAppend over a pair list: the initial entry
extended by every value whose key matches, in input order. -/
theorem alookup_foldl_dictAppend {α : Type} (k : String) :
    ∀ (ps : List (String × α)) (init : List (String × List α)),
      alookup k (ps.foldl (fun a p => dictAppend p.1 p.2 a) init)
        = optExtend (alookup k init)
            ((ps.filter (fun p => p.1 = k)).map Prod.snd) := by
  intro ps
  induction ps with
  | nil => intro init; simp [optExtend_nil]
  | cons p t ih =>
    intro init
    simp only [List.foldl_cons]
    rw [ih]
    by_cases hp : p.1 = k
    · have hl : alookup k (dictAppend p.1 p.2 init)
          = some ((alookup k init).getD [] ++ [p.2]) := by
        simp [dictAppend, alookup_dictUpd, hp]
      rw [hl, optExtend_some]
      simp [List.filter_cons, hp, optExtend_cons]
    · have hl : alookup k (dictAppend p.1 p.2 init) = alookup k init := by
        simp [dictAppend, alookup_dictUpd, hp]
      rw [hl]
      simp [List.filter_cons, hp]

/-- A doubly nested dictAppend fold equals the fold over the flattened pairs. -/
theorem foldl_foldl_flatten {α β : Type} (proj : β → List (String × α)) (dl : List β) :
    ∀ init, dl.foldl (fun c d => (proj d).foldl (fun a p => dictAppend p.1 p.2 a) c) init
      = (dl.flatMap proj).foldl (fun a p => dictAppend p.1 p.2 a) init := by
  induction dl with
  | nil => intro init; simp
  | cons d t ih => intro init; simp [List.flatMap_cons, List.foldl_append, ih]

/-- dictAppend preserves a per-entry predicate linking keys to stored values,
provided the appended value satisfies it at its key. -/
theorem dictAppend_group_inv {α : Type} (Q : String → α → Prop) (key : String) (v : α)
    (hv : Q key v) :
    ∀ (m : List (String × List α)), (∀ kv ∈ m, ∀ x ∈ kv.2, Q kv.1 x) →
      ∀ kv ∈ dictAppend key v m, ∀ x ∈ kv.2, Q kv.1 x := by
  intro m
  induction m with
  | nil =>
    intro _ kv hkv x hx
    simp only [dictAppend, dictUpd] at hkv
    simp only [List.mem_singleton] at hkv
    subst hkv
    simp only [Option.getD_none, List.nil_append, List.mem_singleton] at hx
    subst hx
    exact hv
  | cons kv0 rest ih =>
    obtain ⟨k1, vs1⟩ := kv0
    intro hm kv hkv x hx
    by_cases h1 : k1 = key
    · simp only [dictAppend, dictUpd, if_pos h1] at hkv
      rcases List.mem_cons.mp hkv with hkv | hkv
      · subst hkv
        simp only [Option.getD_some] at hx
        rcases List.mem_append.mp hx with hx | hx
        · exact hm (k1, vs1) (List.mem_cons_self _ _) x hx
        · rw [List.mem_singleton] at hx
          subst hx
          rw [h1]
          exact hv
      · exact hm kv (List.mem_cons_of_mem _ hkv) x hx
    · simp only [dictAppend, dictUpd, if_neg h1] at hkv
      rcases List.mem_cons.mp hkv with hkv | hkv
      · subst hkv
        exact hm (k1, vs1) (List.mem_cons_self _ _) x hx
      · exact ih (fun kv2 h2 => hm kv2 (List.mem_cons_of_mem _ h2)) kv hkv x hx

/-- Folding dictAppend over any pair list keeps the keys duplicate-free. -/
theorem nodup_foldl_dictAppend {α : Type} (ps : List (String × α)) :
    ∀ init, (dictKeys init).Nodup →
      (dictKeys (ps.foldl (fun a p => dictAppend p.1 p.2 a) init)).Nodup := by
  intro init h
  exact foldl_inv (fun m => (dictKeys m).Nodup) _
    (fun acc p hacc => nodup_dictKeys_dictUpd _ _ _ hacc) ps init h

set_option maxRecDepth 10000

/-! ## Claim theorems -/

/-- Claim C1: for every strategy data, metrics data and highlights string,
`generate_insights` returns a dict with exactly the four keys
platform_insights, kpi_insights, content_insights (lists of strings) and
key_takeaway (a string).  In the embedding every synthesis helper is a total
function of the typed inputs, which is the never-raises guarantee; the except
branch of the source returns exactly the empty-default bundle with the fixed
error sentence, restated here as the shape of `errorInsights`. -/
theorem generate_insights_shape (sd : StrategyData) (md : MetricsData)
    (highlights : String) :
    dictKeys (generate_insights sd md highlights)
      = ["platform_insights", "kpi_insights", "content_insights", "key_takeaway"]
    ∧ (∃ p k c t, generate_insights sd md highlights
        = [("platform_insights", InsightValue.strs p),
           ("kpi_insights", InsightValue.strs k),
           ("content_insights", InsightValue.strs c),
           ("key_takeaway", InsightValue.str t)])
    ∧ errorInsights
        = [("platform_insights", InsightValue.strs []),
           ("kpi_insights", InsightValue.strs []),
           ("content_insights", InsightValue.strs []),
           ("key_takeaway", InsightValue.str
             "Unable to generate insights due to an error.")] :=
  ⟨rfl, ⟨_, _, _, _, rfl⟩, rfl⟩

/-- Claim C8: on the text "KPIs\nReach: 5000\nClicks: 200\n\nOther text",
KPI extraction returns exactly [{Reach, 5000}, {Clicks, 200}] in order. -/
theorem extract_kpis_example :
    extract_kpis "KPIs\nReach: 5000\nClicks: 200\n\nOther text"
      = [{ name := "Reach", value := "5000" }, { name := "Clicks", value := "200" }] := by
  decide

/-- Claim C2: for KPI {Impressions, 10,000} against pooled metric
impressions = 12000 the emitted insight is the Exceeded sentence, and for
target 15000 against 12000 the Below sentence; in general, with both stripped
values parsing numerically, metric at least target gives the Exceeded-KPI
sentence and metric below target the Below-KPI sentence, while a parse
failure on either side gives the neutral sentence naming target and achieved
with no verdict.  Numeric values are modelled exactly over the rationals. -/
theorem kpi_comparison_correct :
    (generate_kpi_insights ⟨[⟨"Impressions", "10,000"⟩], []⟩
        [("img1", ⟨"instagram", [("impressions", "12000")]⟩)]
      = ["Exceeded KPI for impressions: Target was 10,000, achieved 12000."]
     ∧ strContains "Exceeded KPI for impressions: Target was 10,000, achieved 12000."
         "Exceeded" = true)
    ∧ (generate_kpi_insights ⟨[⟨"Impressions", "15000"⟩], []⟩
        [("img1", ⟨"instagram", [("impressions", "12000")]⟩)]
      = ["Below KPI for impressions: Target was 15000, achieved 12000."]
     ∧ strContains "Below KPI for impressions: Target was 15000, achieved 12000."
         "Below" = true)
    ∧ (∀ (kpiName kpiValue metricValue : String) (kpiNum metricNum : ℚ),
        parseFloatQ (stripNum kpiValue) = some kpiNum →
        parseFloatQ (stripNum metricValue) = some metricNum →
        kpiSentence kpiName kpiValue metricValue
          = if metricNum ≥ kpiNum then
              "Exceeded KPI for " ++ kpiName ++ ": Target was " ++ kpiValue
                ++ ", achieved " ++ metricValue ++ "."
            else
              "Below KPI for " ++ kpiName ++ ": Target was " ++ kpiValue
                ++ ", achieved " ++ metricValue ++ ".")
    ∧ (∀ kpiName kpiValue metricValue : String,
        parseFloatQ (stripNum kpiValue) = none
          ∨ parseFloatQ (stripNum metricValue) = none →
        kpiSentence kpiName kpiValue metricValue
          = "KPI for " ++ kpiName ++ ": Target was " ++ kpiValue
              ++ ", achieved " ++ metricValue ++ ".") := by
  refine ⟨⟨by decide, by decide⟩, ⟨by decide, by decide⟩, ?_, ?_⟩
  · intro kn kv mv kq mq hk hm
    unfold kpiSentence
    rw [hk, hm]
  · intro kn kv mv h
    rcases h with h | h
    · unfold kpiSentence
      rw [h]
    · rcases hx : parseFloatQ (stripNum kv) with _ | q <;>
        simp [kpiSentence, hx, h]

/-- Witness for claim C2: the general clauses applied at a concrete
unparseable target. -/
theorem kpi_comparison_correct_witness :
    kpiSentence "reach" "abc" "xyz"
      = "KPI for reach: Target was abc, achieved xyz." :=
  kpi_comparison_correct.2.2.2 "reach" "abc" "xyz" (Or.inl (by decide))

/-- Claim C10: any text containing the letter x in any case while containing
none of the facebook keywords (facebook, fb, meta) or instagram keywords
(instagram, ig, insta) case-insensitively is classified as twitter — in
particular never as linkedin, tiktok, youtube, pinterest or unknown. -/
theorem detect_platform_x_twitter (text : String)
    (hx : strContains (pyLower text) "x" = true)
    (hfacebook : strContains (pyLower text) "facebook" = false)
    (hfb : strContains (pyLower text) "fb" = false)
    (hmeta : strContains (pyLower text) "meta" = false)
    (hinstagram : strContains (pyLower text) "instagram" = false)
    (hig : strContains (pyLower text) "ig" = false)
    (hinsta : strContains (pyLower text) "insta" = false) :
    detect_platform text = "twitter" := by
  simp only [detect_platform, platformTable, detectPlatformGo,
    List.any_cons, List.any_nil,
    show pyLower "facebook" = "facebook" from by decide,
    show pyLower "fb" = "fb" from by decide,
    show pyLower "meta" = "meta" from by decide,
    show pyLower "instagram" = "instagram" from by decide,
    show pyLower "ig" = "ig" from by decide,
    show pyLower "insta" = "insta" from by decide,
    show pyLower "x" = "x" from by decide,
    hx, hfacebook, hfb, hmeta, hinstagram, hig, hinsta,
    Bool.or_false, Bool.false_or, Bool.or_true, Bool.true_or,
    Bool.false_eq_true, if_false, if_true]

/-- Witness for claim C10 at the concrete text xyz. -/
theorem detect_platform_x_twitter_witness : detect_platform "xyz" = "twitter" :=
  detect_platform_x_twitter "xyz" (by decide) (by decide) (by decide) (by decide)
    (by decide) (by decide) (by decide)

/-- Claim C9: the key takeaway is the keyword-count trichotomy over the
concatenated insights when any insight exists (strictly more positive than
negative keyword carriers gives the fixed strong sentence, strictly more
negative the fixed below sentence, a tie the fixed mixed sentence); with no
insights it is the fixed account-manager sentence when highlights are
non-empty and the fixed insufficient-data sentence when both are empty. -/
theorem key_takeaway_cases (p k c : List String) (highlights : String) :
    (p ++ k ++ c ≠ [] →
      generate_key_takeaway p k c highlights
        = (if positiveCount (p ++ k ++ c) > negativeCount (p ++ k ++ c)
           then strongTakeaway
           else if negativeCount (p ++ k ++ c) > positiveCount (p ++ k ++ c)
           then belowTakeaway
           else mixedTakeaway))
    ∧ (p ++ k ++ c = [] → highlights ≠ "" →
        generate_key_takeaway p k c highlights = highlightsTakeaway)
    ∧ (p ++ k ++ c = [] → highlights = "" →
        generate_key_takeaway p k c highlights = insufficientTakeaway) := by
  refine ⟨?_, ?_, ?_⟩
  · intro h
    have hb : (p ++ k ++ c != []) = true := bne_iff_ne.mpr h
    simp only [generate_key_takeaway, hb, if_true]
  · intro h1 h2
    have hb : (highlights != "") = true := bne_iff_ne.mpr h2
    simp [generate_key_takeaway, h1, hb]
  · intro h1 h2
    simp [generate_key_takeaway, h1, h2]

/-- Witness for claim C9: one positive insight and nothing negative gives the
fixed strong-performance sentence. -/
theorem key_takeaway_cases_witness :
    generate_key_takeaway ["Audience grew fast"] [] [] "" = strongTakeaway := by
  have h := (key_takeaway_cases ["Audience grew fast"] [] [] "").1 (by decide)
  rw [h]
  decide

/-- Claim C3 is false of the code: the metric loop of _generate_kpi_insights
has no break, so one KPI matching two pooled metrics emits two insights, not
at most one. -/
theorem kpi_single_insight_counterexample :
    ¬ (generate_kpi_insights ⟨[⟨"impressions engagement", "5"⟩], []⟩
        [("img", ⟨"instagram", [("impressions", "10"), ("engagement", "20")]⟩)]).length
      ≤ 1 := by
  decide

/-- Claim C3 amended: every KPI contributes one insight for each pooled metric
(in pooled-mapping iteration order) whose name matches the lowered KPI name as
a case-insensitive substring in either direction and which has a recorded
value; a KPI matching no pooled metric contributes no insight. -/
theorem kpi_insight_per_match (sd : StrategyData) (md : MetricsData) :
    generate_kpi_insights sd md
      = sd.kpis.flatMap (fun kpi =>
          (allMetrics md).flatMap (fun mv =>
            if (strContains (pyLower kpi.name) (pyLower mv.1)
                || strContains (pyLower mv.1) (pyLower kpi.name)) = true then
              match mv.2 with
              | [] => []
              | v :: _ => [kpiSentence (pyLower kpi.name) kpi.value v]
            else [])) := by
  simp only [generate_kpi_insights]
  refine Eq.trans (foldl_app _ _ ?_ sd.kpis []) (List.nil_append _)
  intro acc kpi
  refine Eq.trans (foldl_app _ _ ?_ (allMetrics md) acc) rfl
  intro a mv
  cases hb : (strContains (pyLower kpi.name) (pyLower mv.1)
      || strContains (pyLower mv.1) (pyLower kpi.name))
  · simp
  · cases hm : mv.2 <;> simp

/-- Claim C4: platform insight generation groups the metrics entries by
platform, skips the unknown group entirely, and emits per known-platform
group one templated sentence per combined metric name with a value, using the
head of that name's value list; the combined mapping has duplicate-free keys
and maps each name to all values recorded across the group's images in input
order (so the head is the first value recorded); on the concrete two-image
instagram example only the first engagement value 500 is used. -/
theorem platform_insights_grouping (md : MetricsData) :
    (generate_platform_insights md
      = (groupByPlatform md).flatMap (fun pg =>
          if pg.1 = "unknown" then []
          else (combineMetrics pg.2).flatMap (fun mv =>
            match mv.2 with
            | [] => []
            | v :: _ => (platformSentence pg.1 mv.1 v).toList)))
    ∧ (∀ pg ∈ groupByPlatform md, ∀ d ∈ pg.2, d.platform = pg.1)
    ∧ (∀ dataList : List ImageMetrics, (dictKeys (combineMetrics dataList)).Nodup)
    ∧ (∀ (dataList : List ImageMetrics) (k : String),
        alookup k (combineMetrics dataList)
          = (if ((dataList.flatMap (fun d => d.metrics)).filter (fun p => p.1 = k)) = []
             then none
             else some (((dataList.flatMap (fun d => d.metrics)).filter
               (fun p => p.1 = k)).map Prod.snd)))
    ∧ generate_platform_insights
        [("shot1", ⟨"instagram", [("engagement", "500")]⟩),
         ("shot2", ⟨"instagram", [("engagement", "800")]⟩)]
        = ["Instagram engagement was strong with 500 interactions."] := by
  refine ⟨?_, ?_, ?_, ?_, by decide⟩
  · simp only [generate_platform_insights]
    refine Eq.trans (foldl_app _ _ ?_ (groupByPlatform md) []) (List.nil_append _)
    intro acc pg
    by_cases hu : pg.1 = "unknown"
    · simp [hu]
    · rw [if_neg hu, if_neg hu]
      refine Eq.trans (foldl_app _ _ ?_ (combineMetrics pg.2) acc) rfl
      intro a mv
      cases hm : mv.2 with
      | nil => simp
      | cons v t =>
        cases hs : platformSentence pg.1 mv.1 v <;> simp [hs, Option.toList]
  · have h := foldl_inv
      (fun m : List (String × List ImageMetrics) =>
        ∀ pg ∈ m, ∀ d ∈ pg.2, d.platform = pg.1)
      (fun platforms kv => dictAppend kv.2.platform kv.2 platforms)
      (fun acc kv hacc => dictAppend_group_inv (fun key d => d.platform = key)
        kv.2.platform kv.2 rfl acc hacc)
      md [] (by simp)
    simpa [groupByPlatform] using h
  · intro dataList
    simp only [combineMetrics]
    rw [foldl_foldl_flatten (fun d => d.metrics) dataList []]
    exact nodup_foldl_dictAppend _ [] (by simp [dictKeys])
  · intro dataList k
    simp only [combineMetrics]
    rw [foldl_foldl_flatten (fun d => d.metrics) dataList [],
      alookup_foldl_dictAppend]
    cases hv : (dataList.flatMap (fun d => d.metrics)).filter (fun p => p.1 = k) with
    | nil => simp [alookup, optExtend_nil]
    | cons v t => simp [alookup, optExtend_cons]

/-- Witness for claim C4: the grouping invariant applied at a concrete
one-image metrics dict. -/
theorem platform_insights_grouping_witness :
    (⟨"instagram", [("engagement", "500")]⟩ : ImageMetrics).platform = "instagram" :=
  (platform_insights_grouping
      [("shot1", ⟨"instagram", [("engagement", "500")]⟩)]).2.1
    ("instagram", [⟨"instagram", [("engagement", "500")]⟩]) (by decide)
    ⟨"instagram", [("engagement", "500")]⟩ (by decide)

/-- dictSet leaves other keys unchanged. -/
theorem alookup_dictSet_ne {α : Type} (k mn : String) (v : α)
    (m : List (String × α)) (h : ¬ mn = k) :
    alookup k (dictSet mn v m) = alookup k m := by
  simp only [dictSet]
  rw [alookup_dictUpd, if_neg h]

/-- The word loop writes only its own metric key. -/
theorem wordScan_alookup_ne (k mn pat : String) (h : ¬ mn = k) :
    ∀ (ws : List String) (m : List (String × String)),
      alookup k (wordScan mn pat m ws) = alookup k m := by
  intro ws
  induction ws with
  | nil => intro m; rfl
  | cons w rest ih =>
    intro m
    cases rest with
    | nil => rfl
    | cons next rest2 =>
      simp only [wordScan]
      by_cases hc : strContains (pyLower w) (pyLower pat) = true
      · rw [if_pos hc]
        exact alookup_dictSet_ne k mn _ m h
      · rw [if_neg hc]
        exact ih m

/-- The line loop writes only its own metric key. -/
theorem scanLines_alookup_ne (k mn pat : String) (h : ¬ mn = k) :
    ∀ (lines : List String) (m : List (String × String)),
      alookup k (scanLines mn pat m lines) = alookup k m := by
  intro lines
  induction lines with
  | nil => intro m; rfl
  | cons line rest ih =>
    intro m
    simp only [scanLines]
    by_cases hc : strContains (pyLower line) (pyLower pat) = true
    · rw [if_pos hc]
      by_cases hp : (pySplitOn line ":").length > 1
      · rw [if_pos hp]
        exact alookup_dictSet_ne k mn _ m h
      · rw [if_neg hp, ih]
        exact wordScan_alookup_ne k mn pat h (pySplitWs line) m
    · rw [if_neg hc]
      exact ih m

/-- The pattern loop writes only its own metric key. -/
theorem extractOne_alookup_ne (k mn text : String) (h : ¬ mn = k) :
    ∀ (pats : List String) (m : List (String × String)),
      alookup k (extractOne text m mn pats) = alookup k m := by
  intro pats
  induction pats with
  | nil => intro m; rfl
  | cons p rest ih =>
    intro m
    show alookup k (extractOne text
      (if strContains (pyLower text) (pyLower p) = true
       then scanLines mn p m (pySplitOn text "\n") else m) mn rest) = alookup k m
    rw [ih]
    by_cases hc : strContains (pyLower text) (pyLower p) = true
    · rw [if_pos hc]
      exact scanLines_alookup_ne k mn p h (pySplitOn text "\n") m
    · rw [if_neg hc]

/-- When none of a metric name's trigger patterns occurs in the text, the
pattern loop does nothing at all. -/
theorem extractOne_noop (text mn : String) :
    ∀ (pats : List String) (m : List (String × String)),
      (∀ p ∈ pats, strContains (pyLower text) (pyLower p) = false) →
      extractOne text m mn pats = m := by
  intro pats
  induction pats with
  | nil => intro m _; rfl
  | cons p rest ih =>
    intro m hall
    have hp : strContains (pyLower text) (pyLower p) = false :=
      hall p (List.mem_cons_self _ _)
    show extractOne text
      (if strContains (pyLower text) (pyLower p) = true
       then scanLines mn p m (pySplitOn text "\n") else m) mn rest = m
    rw [hp]
    simp only [Bool.false_eq_true, if_false]
    exact ih m (fun q hq => hall q (List.mem_cons_of_mem _ hq))

/-- Folding the metric loop over entries none of which both carry the key and
have a trigger present leaves that key untouched. -/
theorem alookup_foldl_extractOne (text k : String) :
    ∀ (entries : List (String × List String)) (m : List (String × String)),
      (∀ e ∈ entries, e.1 = k →
        ∀ p ∈ e.2, strContains (pyLower text) (pyLower p) = false) →
      alookup k (entries.foldl (fun m2 e => extractOne text m2 e.1 e.2) m)
        = alookup k m := by
  intro entries
  induction entries with
  | nil => intro m _; rfl
  | cons e rest ih =>
    intro m hall
    rw [List.foldl_cons, ih _ (fun e2 h2 => hall e2 (List.mem_cons_of_mem _ h2))]
    by_cases he : e.1 = k
    · rw [extractOne_noop text e.1 e.2 m (hall e (List.mem_cons_self _ _) he)]
    · exact extractOne_alookup_ne k e.1 text he e.2 m

/-- The word loop keeps the metric keys duplicate-free. -/
theorem nodup_wordScan (mn pat : String) :
    ∀ (ws : List String) (m : List (String × String)),
      (dictKeys m).Nodup → (dictKeys (wordScan mn pat m ws)).Nodup := by
  intro ws
  induction ws with
  | nil => intro m h; exact h
  | cons w rest ih =>
    intro m h
    cases rest with
    | nil => exact h
    | cons next rest2 =>
      simp only [wordScan]
      by_cases hc : strContains (pyLower w) (pyLower pat) = true
      · rw [if_pos hc]
        exact nodup_dictKeys_dictUpd _ _ _ h
      · rw [if_neg hc]
        exact ih m h

/-- The line loop keeps the metric keys duplicate-free. -/
theorem nodup_scanLines (mn pat : String) :
    ∀ (lines : List String) (m : List (String × String)),
      (dictKeys m).Nodup → (dictKeys (scanLines mn pat m lines)).Nodup := by
  intro lines
  induction lines with
  | nil => intro m h; exact h
  | cons line rest ih =>
    intro m h
    simp only [scanLines]
    by_cases hc : strContains (pyLower line) (pyLower pat) = true
    · rw [if_pos hc]
      by_cases hp : (pySplitOn line ":").length > 1
      · rw [if_pos hp]
        exact nodup_dictKeys_dictUpd _ _ _ h
      · rw [if_neg hp]
        exact ih _ (nodup_wordScan mn pat (pySplitWs line) m h)
    · rw [if_neg hc]
      exact ih m h

/-- The pattern loop keeps the metric keys duplicate-free. -/
theorem nodup_extractOne (text mn : String) :
    ∀ (pats : List String) (m : List (String × String)),
      (dictKeys m).Nodup → (dictKeys (extractOne text m mn pats)).Nodup := by
  intro pats
  induction pats with
  | nil => intro m h; exact h
  | cons p rest ih =>
    intro m h
    show (dictKeys (extractOne text
      (if strContains (pyLower text) (pyLower p) = true
       then scanLines mn p m (pySplitOn text "\n") else m) mn rest)).Nodup
    by_cases hc : strContains (pyLower text) (pyLower p) = true
    · rw [if_pos hc]
      exact ih _ (nodup_scanLines mn p (pySplitOn text "\n") m h)
    · rw [if_neg hc]
      exact ih m h

/-- Claim C5 as stated is false of the code: the pattern loop of
_extract_metrics has no break after recording a value, so a later trigger
keyword (views) overwrites the value recorded from the first qualifying line
(the impressions line).  On this text the first line containing any
impressions trigger is the impressions line whose claimed value is 50, but
the code records 100. -/
theorem metric_first_line_counterexample :
    alookup "impressions" (extract_metrics "impressions: 50\nviews: 100").metrics
      = some "100"
    ∧ claimedMetricValue ["impressions", "views", "reach"]
        "impressions: 50\nviews: 100" = some "50"
    ∧ ("100" : String) ≠ "50" :=
  ⟨by decide, by decide, by decide⟩

/-- Claim C5 amended: _extract_metrics records at most one value per metric
name (the metrics dict has duplicate-free keys); the recorded value is the
last one written while iterating the metric's trigger keywords in source
order, each keyword present in the text scanning the lines; and when no
trigger keyword of a metric occurs anywhere in the text the metric key is
absent from the result. -/
theorem metric_extraction_amended (text : String) :
    (dictKeys (extract_metrics text).metrics).Nodup
    ∧ (∀ entry ∈ metricPatterns,
        (∀ p ∈ entry.2, strContains (pyLower text) (pyLower p) = false) →
        alookup entry.1 (extract_metrics text).metrics = none) := by
  constructor
  · exact foldl_inv (fun m => (dictKeys m).Nodup)
      (fun m e => extractOne text m e.1 e.2)
      (fun acc e hacc => nodup_extractOne text e.1 e.2 acc hacc)
      metricPatterns [] (by simp [dictKeys])
  · intro entry hmem hnone
    show alookup entry.1
      (metricPatterns.foldl (fun m e => extractOne text m e.1 e.2) []) = none
    rw [alookup_foldl_extractOne text entry.1 metricPatterns []]
    · rfl
    · intro e he hname
      simp only [metricPatterns, List.mem_cons, List.not_mem_nil, or_false] at he hmem
      rcases he with he | he | he | he | he <;> subst he <;>
        rcases hmem with hm | hm | hm | hm | hm <;> subst hm <;>
          first
            | exact hnone
            | exact absurd hname (by decide)

/-- Witness for claim C5 amended: on a text with no clicks trigger the clicks
key is absent, and the keys are duplicate-free. -/
theorem metric_extraction_amended_witness :
    (dictKeys (extract_metrics "hello").metrics).Nodup
    ∧ alookup "clicks" (extract_metrics "hello").metrics = none :=
  ⟨(metric_extraction_amended "hello").1,
   (metric_extraction_amended "hello").2
     ("clicks", ["clicks", "link clicks", "website clicks"])
     (by decide) (by decide)⟩

/-- Claim C6 as stated is false of the code: on a line with two colons the
code records line.split(":")[1].strip(), the text between the first and
second colons, not everything after the first colon.  On "clicks: 10:30" the
code records 10 while everything after the first colon trimmed is 10:30. -/
theorem colon_value_counterexample :
    alookup "clicks" (extract_metrics "clicks: 10:30").metrics = some "10"
    ∧ (breakAtFirst ':' "clicks: 10:30".toList).map
        (fun pr => pyStrip (String.mk pr.2)) = some "10:30"
    ∧ ("10" : String) ≠ "10:30" :=
  ⟨by decide, by decide, by decide⟩

/-- Claim C6 amended: for the first line containing the trigger, when the
line contains a colon the recorded value is the segment between the first and
second colons, trimmed (Python split(":")[1]); otherwise the line is split
into words, and the first word containing the trigger that has a following
word contributes that following word stripped to digits, dots and percent
characters. -/
theorem metric_line_value_amended (metricName pat : String)
    (m : List (String × String)) (line : String) (rest : List String)
    (hline : strContains (pyLower line) (pyLower pat) = true) :
    ((pySplitOn line ":").length > 1 →
      scanLines metricName pat m (line :: rest)
        = dictSet metricName (pyStrip (((pySplitOn line ":").get? 1).getD "")) m)
    ∧ (¬ (pySplitOn line ":").length > 1 →
      scanLines metricName pat m (line :: rest)
        = scanLines metricName pat (wordScan metricName pat m (pySplitWs line)) rest)
    ∧ (∀ (w next : String) (tail : List String) (m2 : List (String × String)),
        strContains (pyLower w) (pyLower pat) = true →
        wordScan metricName pat m2 (w :: next :: tail)
          = dictSet metricName
              (String.mk ((pyStrip next).toList.filter
                (fun c => c.isDigit || c = '.' || c = '%'))) m2) := by
  refine ⟨?_, ?_, ?_⟩
  · intro hp
    simp only [scanLines]
    rw [if_pos hline, if_pos hp]
  · intro hp
    simp only [scanLines]
    rw [if_pos hline, if_neg hp]
  · intro w next tail m2 hw
    simp only [wordScan]
    rw [if_pos hw]

/-- Witness for claim C6 amended: the colon clause applied on the two-colon
line records the segment between the colons. -/
theorem metric_line_value_amended_witness :
    scanLines "clicks" "clicks" [] ["clicks: 10:30"] = [("clicks", "10")] := by
  have h := (metric_line_value_amended "clicks" "clicks" [] "clicks: 10:30" []
    (by decide)).1 (by decide)
  rw [h]
  decide

/-- The split worker never returns an empty chunk list. -/
theorem splitChunksF_ne_nil (sep : List Char) :
    ∀ (fuel : Nat) (l : List Char), splitChunksF sep fuel l ≠ [] := by
  intro fuel
  induction fuel with
  | zero => intro l; cases l <;> simp [splitChunksF]
  | succ f ih =>
    intro l
    cases l with
    | nil => simp [splitChunksF]
    | cons c rest =>
      simp only [splitChunksF]
      by_cases hp : List.isPrefixOf sep (c :: rest) = true
      · rw [if_pos hp]; simp
      · rw [if_neg hp]
        cases h : splitChunksF sep f rest <;> simp

/-- The first chunk of the split is the text up to the first separator
occurrence. -/
theorem splitChunksF_head (sep : List Char) (hsep : sep ≠ []) :
    ∀ (fuel : Nat) (l : List Char), l.length ≤ fuel →
      (splitChunksF sep fuel l).head? = some (upToFirstSub sep l) := by
  intro fuel
  induction fuel with
  | zero =>
    intro l hl
    have hnil : l = [] := List.eq_nil_of_length_eq_zero (Nat.le_zero.mp hl)
    subst hnil
    simp [splitChunksF, upToFirstSub]
  | succ f ih =>
    intro l hl
    cases l with
    | nil => simp [splitChunksF, upToFirstSub]
    | cons c rest =>
      have hrest : rest.length ≤ f := by
        simp only [List.length_cons] at hl
        omega
      simp only [splitChunksF, upToFirstSub]
      by_cases hp : List.isPrefixOf sep (c :: rest) = true
      · rw [if_pos hp, if_pos hp]
        simp
      · rw [if_neg hp, if_neg hp]
        rcases h : splitChunksF sep f rest with _ | ⟨chunk, more⟩
        · exact absurd h (splitChunksF_ne_nil sep f rest)
        · have hh := ih rest hrest
          rw [h] at hh
          simp only [List.head?_cons, Option.some.injEq] at hh
          simp [hh]

/-- The second chunk of the split is the remainder after the first separator
occurrence, cut at its next occurrence; absent when the separator does not
occur. -/
theorem splitChunksF_second (sep : List Char) (hsep : sep ≠ []) :
    ∀ (fuel : Nat) (l : List Char), l.length ≤ fuel →
      (splitChunksF sep fuel l).get? 1
        = (afterFirstSub sep l).map (upToFirstSub sep) := by
  intro fuel
  induction fuel with
  | zero =>
    intro l hl
    have hnil : l = [] := List.eq_nil_of_length_eq_zero (Nat.le_zero.mp hl)
    subst hnil
    simp [splitChunksF, afterFirstSub]
  | succ f ih =>
    intro l hl
    cases l with
    | nil => simp [splitChunksF, afterFirstSub]
    | cons c rest =>
      have hrest : rest.length ≤ f := by
        simp only [List.length_cons] at hl
        omega
      simp only [splitChunksF, afterFirstSub]
      by_cases hp : List.isPrefixOf sep (c :: rest) = true
      · rw [if_pos hp, if_pos hp]
        have hdrop : (List.drop sep.length (c :: rest)).length ≤ f := by
          have hpos : 1 ≤ sep.length := List.length_pos.mpr hsep
          simp only [List.length_drop, List.length_cons]
          omega
        have hh := splitChunksF_head sep hsep f (List.drop sep.length (c :: rest)) hdrop
        simp only [List.get?_cons_succ, List.get?_zero, hh, Option.map_some']
      · rw [if_neg hp, if_neg hp]
        rcases h : splitChunksF sep f rest with _ | ⟨chunk, more⟩
        · exact absurd h (splitChunksF_ne_nil sep f rest)
        · have hh := ih rest hrest
          rw [h] at hh
          simpa using hh

/-- When the needle occurs, there is text after its first occurrence. -/
theorem afterFirstSub_isSome (needle : List Char) (hn : needle ≠ []) :
    ∀ l, listContains l needle = true →
      ∃ rem, afterFirstSub needle l = some rem := by
  intro l
  induction l with
  | nil =>
    intro h
    simp only [listContains, List.isEmpty_iff] at h
    exact absurd h hn
  | cons c rest ih =>
    intro h
    simp only [listContains, Bool.or_eq_true] at h
    by_cases hp : List.isPrefixOf needle (c :: rest) = true
    · exact ⟨List.drop needle.length (c :: rest), by simp [afterFirstSub, hp]⟩
    · rcases h with h | h
      · exact absurd h hp
      · rcases ih h with ⟨rem, hrem⟩
        exact ⟨rem, by simp [afterFirstSub, hp, hrem]⟩

/-- The first field of a Python split in terms of the first occurrence. -/
theorem pySplitOn_head (text sep : String) (hsep : sep.toList ≠ []) :
    (pySplitOn text sep).get? 0
      = some (String.mk (upToFirstSub sep.toList text.toList)) := by
  simp only [pySplitOn]
  rw [List.get?_map, List.get?_zero,
    splitChunksF_head sep.toList hsep text.toList.length text.toList le_rfl]
  simp

/-- The second field of a Python split in terms of the first occurrence. -/
theorem pySplitOn_second (text sep : String) (hsep : sep.toList ≠ [])
    (hc : strContains text sep = true) :
    (pySplitOn text sep).get? 1
      = some (String.mk (upToFirstSub sep.toList
          ((afterFirstSub sep.toList text.toList).getD []))) := by
  rcases afterFirstSub_isSome sep.toList hsep text.toList hc with ⟨rem, hrem⟩
  simp only [pySplitOn]
  rw [List.get?_map,
    splitChunksF_second sep.toList hsep text.toList.length text.toList le_rfl, hrem]
  simp

/-- Accumulated KPI line parsing splits off its accumulator. -/
theorem parseKpiLines_append (ks : List Kpi) (s : String) :
    parseKpiLines ks s = ks ++ parseKpiLines [] s := by
  simp only [parseKpiLines]
  have hf : ∀ (acc : List Kpi) (rawLine : String),
      (let line := pyStrip rawLine
       if line != "" && strContains line ":" then
         match breakAtFirst ':' line.toList with
         | some (n, v) =>
           acc ++ [{ name := pyStrip (String.mk n), value := pyStrip (String.mk v) }]
         | none => acc
       else acc)
      = acc ++
        (let line := pyStrip rawLine
         if line != "" && strContains line ":" then
           match breakAtFirst ':' line.toList with
           | some (n, v) =>
             [{ name := pyStrip (String.mk n), value := pyStrip (String.mk v) }]
           | none => []
         else []) := by
    intro acc rawLine
    by_cases hc : (pyStrip rawLine != "" && strContains (pyStrip rawLine) ":") = true
    · simp only [hc, if_true]
      rcases hb : breakAtFirst ':' (pyStrip rawLine).toList with _ | ⟨n, v⟩ <;>
        simp [hb]
    · simp only [Bool.not_eq_true] at hc
      simp [hc]
  rw [foldl_app _ _ hf (pySplitOn s "\n") ks,
    foldl_app _ _ hf (pySplitOn s "\n") [], List.nil_append]

/-- Claim C7 as stated is false of the code: when the heading string occurs a
second time, text.split(heading)[1] ends at that second occurrence, so the
scanned block is cut there and not only at the first blank line.  On this
text the claim predicts the value "5000 KPIs extra" while the code extracts
"5000". -/
theorem kpi_block_counterexample :
    extract_kpis "KPIs\nReach: 5000 KPIs extra"
      = [{ name := "Reach", value := "5000" }]
    ∧ claimed_kpis "KPIs\nReach: 5000 KPIs extra"
      = [{ name := "Reach", value := "5000 KPIs extra" }]
    ∧ ({ name := "Reach", value := "5000" } : Kpi)
      ≠ { name := "Reach", value := "5000 KPIs extra" } :=
  ⟨by decide, by decide, by decide⟩

/-- Claim C7 amended: for every heading variant present (case-sensitively) in
the text, the extractor scans the substring between the first occurrence of
that heading and its next occurrence (or the end of text), truncated at the
first double-newline boundary inside it; each non-empty line of the block
containing a colon is split on the first colon with both sides trimmed, the
blocks of the three heading variants contributing in table order. -/
theorem kpi_block_amended (text : String) :
    extract_kpis text
      = kpiSections.flatMap (fun sec =>
          if strContains text sec = true then
            parseKpiLines []
              (String.mk (upToFirstSub ('\n' :: '\n' :: [])
                (upToFirstSub sec.toList
                  ((afterFirstSub sec.toList text.toList).getD []))))
          else []) := by
  have h1 : extract_kpis text
      = kpiSections.flatMap (fun sec =>
          if strContains text sec = true then
            parseKpiLines []
              (((pySplitOn (((pySplitOn text sec).get? 1).getD "") "\n\n").get? 0).getD "")
          else []) := by
    simp only [extract_kpis]
    refine Eq.trans (foldl_app _ _ ?_ kpiSections []) (List.nil_append _)
    intro acc sec
    by_cases hc : strContains text sec = true
    · rw [if_pos hc, if_pos hc]
      exact parseKpiLines_append acc _
    · rw [if_neg hc, if_neg hc, List.append_nil]
  have hsec : ∀ sec : String, sec.toList ≠ [] →
      (if strContains text sec = true then
        parseKpiLines []
          (((pySplitOn (((pySplitOn text sec).get? 1).getD "") "\n\n").get? 0).getD "")
      else [])
      = (if strContains text sec = true then
        parseKpiLines []
          (String.mk (upToFirstSub ('\n' :: '\n' :: [])
            (upToFirstSub sec.toList
              ((afterFirstSub sec.toList text.toList).getD []))))
      else []) := by
    intro sec hne
    by_cases hc : strContains text sec = true
    · rw [if_pos hc, if_pos hc]
      rw [pySplitOn_second text sec hne hc, Option.getD_some,
        pySplitOn_head _ "\n\n" (by decide), Option.getD_some]
      rfl
    · rw [if_neg hc, if_neg hc]
  rw [h1]
  simp only [kpiSections, List.flatMap_cons, List.flatMap_nil]
  rw [hsec "KPIs" (by decide), hsec "Key Performance Indicators" (by decide),
    hsec "Performance Metrics" (by decide)]
